import Mathlib

/-!
Verification of the `tui-sh` terminal alias menu (src/main.rs).

This file shallowly embeds the in-memory data model and the event-handling
state machine of the program, together with its config serialization and
loading, and proves (or refutes) the frozen specification claims about it.

Conventions:
* Rust `Vec<Alias>` becomes `List Alias`; `HashMap<String, AliasEntry>` is
  modelled by its contents as an association list with insert-replace
  semantics (`hmInsert`); the unspecified iteration order of a `HashMap` is
  modelled by quantifying over permutations of those contents where order
  matters (serialization).
* The single `main` event loop (src/main.rs:140-459) becomes the pure
  transition function `step : AppState → Event → AppState × List Effect`;
  terminal-only side effects (drawing, raw mode, alternate screen,
  re-creating the `Terminal`) do not touch the modelled state and appear
  only as `Effect`s where they are observable (running commands, writing
  the config, quitting).
* `Vec` indexing that would panic in Rust (`aliases[i]`, `Vec::remove`)
  is modelled totally (out-of-range leaves the state unchanged); the cursor
  invariant proved below shows those branches are never out of range on
  reachable states, so the two semantics agree there.
-/

/-- `struct Alias` (src/main.rs:16-21): name, command, optional keybind. -/
structure Alias where
  name : String
  command : String
  keybind : Option Char
deriving DecidableEq, Repr

/-- `struct AliasEntry` (src/main.rs:23-27): the on-disk form of one alias,
the keybind stored as an optional string. -/
structure AliasEntry where
  command : String
  keybind : Option String
deriving DecidableEq, Repr

/-- `struct ConfigFile` (src/main.rs:29-34). The `aliases` HashMap is
modelled by its contents as an association list (see `hmInsert`); the
`default_shell` field is serialized under the name `default-shell`. -/
structure ConfigFile where
  aliases : List (String × AliasEntry)
  default_shell : String
deriving DecidableEq, Repr

/-- `enum UiMode` (src/main.rs:36-43). `step` in `Adding` is the `u8` field. -/
inductive UiMode where
  | Main
  | Adding (step : Nat) (name : String) (command : String) (keybind : Option Char)
  | EditingSelect
  | Editing (index : Nat) (command : String)
  | RemovingSelect
  | Message (text : String)
deriving DecidableEq, Repr

/-- `enum Focus` (src/main.rs:45-48). -/
inductive Focus where
  | Aliases
  | Actions
deriving DecidableEq, Repr

/-- The key codes the event loop distinguishes (crossterm `KeyCode`);
`Other` stands for every key code matched only by the `_` arms. -/
inductive KeyCode where
  | Tab
  | Up
  | Down
  | Enter
  | Esc
  | Backspace
  | Char (c : Char)
  | Other
deriving DecidableEq, Repr

/-- The events the loop reads (crossterm `Event`): key presses, resizes
(redraw only, src/main.rs:456), and anything else (src/main.rs:457). -/
inductive Event where
  | Key (k : KeyCode)
  | Resize (w : Nat) (h : Nat)
  | OtherEvent
deriving DecidableEq, Repr

/-- Observable side effects of one loop iteration: running a command through
the shell (`run_shell_command_with_shell`), spawning the interactive shell,
writing the config file (`write_config`, carrying the map contents written),
and quitting. -/
inductive Effect where
  | runCommand (cmd : String) (shell : String)
  | spawnShell (shell : String)
  | writeConfig (aliases : List (String × AliasEntry)) (default_shell : String)
  | quit
deriving DecidableEq, Repr

/-- The mutable state of the `main` loop (src/main.rs:119-138):
the alias vector, the alias-list selection (`alias_state.selected()`),
the action-list selection (`opt_state.selected()`), `selected_opt`,
`focus`, `ui_mode`, and the immutable `default_shell`. -/
structure AppState where
  aliases : List Alias
  aliasSel : Option Nat
  optSel : Option Nat
  selectedOpt : Nat
  focus : Focus
  mode : UiMode
  default_shell : String
deriving DecidableEq, Repr

/-- Number of entries in the fixed `options` action menu (src/main.rs:128). -/
def optionsLen : Nat := 5

/-- `MIN_W` (src/main.rs:50). -/
def MIN_W : Nat := 40

/-- `MIN_H` (src/main.rs:51). -/
def MIN_H : Nat := 10

/-- The too-small test of the draw closure (src/main.rs:146):
`size.width < MIN_W || size.height < MIN_H`. -/
def sizeTooSmall (w h : Nat) : Bool :=
  w < MIN_W || h < MIN_H

/-- What the draw closure paints: below the minimum size it clears and
renders only the warning paragraph, then returns (src/main.rs:146-153);
otherwise it renders the full UI. -/
inductive DrawOutput where
  | warningOnly
  | fullUi
deriving DecidableEq, Repr

/-- The draw closure's choice of output as a function of the frame size
(src/main.rs:142-153). -/
def drawKind (w h : Nat) : DrawOutput :=
  if sizeTooSmall w h then .warningOnly else .fullUi

/-- `HashMap::insert` on the modelled contents: replace the value if the key
is present, otherwise add the binding. -/
def hmInsert (m : List (String × AliasEntry)) (k : String) (v : AliasEntry) :
    List (String × AliasEntry) :=
  match m with
  | [] => [(k, v)]
  | (k', v') :: rest =>
      if k' = k then (k, v) :: rest else (k', v') :: hmInsert rest k v

/-- The map contents built by `write_config` (src/main.rs:64-69): insert
every alias in vector order, `a.keybind.map(|c| c.to_string())`. -/
def write_config_map (aliases : List Alias) : List (String × AliasEntry) :=
  aliases.foldl (fun m a =>
    hmInsert m a.name ⟨a.command, a.keybind.map Char.toString⟩) []

/-- Alias-list Up navigation (src/main.rs:330-334, 393-398, 425-429):
when the list is non-empty, `i = selected().unwrap_or(0)` and the new index
wraps from `0` to `len-1`, else decrements; an empty list leaves the
selection unchanged. -/
def move_up (len : Nat) (cur : Option Nat) : Option Nat :=
  if len = 0 then cur
  else
    let i := cur.getD 0
    some (if i = 0 then len - 1 else i - 1)

/-- Alias-list Down navigation (src/main.rs:336-340, 399, 431-435):
when the list is non-empty the new index is `(i+1) % len`; an empty list
leaves the selection unchanged. -/
def move_down (len : Nat) (cur : Option Nat) : Option Nat :=
  if len = 0 then cur
  else
    let i := cur.getD 0
    some ((i + 1) % len)

/-- Keybind lookup (src/main.rs:312):
`aliases.iter().position(|a| a.keybind == Some(c))` — the index of the
first alias in sequence order whose keybind is `Some(c)`, if any. -/
def find_by_keybind (aliases : List Alias) (c : Char) : Option Nat :=
  match aliases with
  | [] => none
  | a :: rest =>
      if a.keybind = some c then some 0
      else (find_by_keybind rest c).map (· + 1)

/-- The Editing-mode Enter commit (src/main.rs:414):
`if let Some(a) = aliases.get_mut(index) { a.command = command.clone(); }` —
a valid index replaces that alias's command in place, an invalid index is a
no-op. -/
def update_command (aliases : List Alias) (index : Nat) (command : String) :
    List Alias :=
  match aliases[index]? with
  | some a => aliases.set index { a with command := command }
  | none => aliases


/-- The Tab focus toggle (src/main.rs:250-253). -/
def toggleFocus : Focus → Focus
  | .Actions => .Aliases
  | .Aliases => .Actions

/-- The Tab arm of the key handler (src/main.rs:249-261). It runs before
the mode dispatch and ends in `continue`: the focus is toggled, a landing
on the alias list with no selection and a non-empty list selects index 0,
and a landing on the actions list re-selects `selected_opt`. -/
def handleTab (s : AppState) : AppState :=
  let focus := toggleFocus s.focus
  match focus with
  | .Aliases =>
      if s.aliasSel.isNone && !s.aliases.isEmpty then
        { s with focus := focus, aliasSel := some 0 }
      else
        { s with focus := focus }
  | .Actions => { s with focus := focus, optSel := some s.selectedOpt }

/-- `Main`-mode keys with focus on the actions menu (src/main.rs:268-326):
Up/Down move the wrapping action cursor, Enter dispatches on `selected_opt`
(Add, Edit, Remove, Go to shell, Quit), and a character key runs the first
alias whose keybind matches, if any. -/
def handleMainActions (s : AppState) (key : KeyCode) : AppState × List Effect :=
  match key with
  | .Up =>
      let so := if s.selectedOpt = 0 then optionsLen - 1 else s.selectedOpt - 1
      ({ s with selectedOpt := so, optSel := some so }, [])
  | .Down =>
      let so := (s.selectedOpt + 1) % optionsLen
      ({ s with selectedOpt := so, optSel := some so }, [])
  | .Enter =>
      match s.selectedOpt with
      | 0 => ({ s with mode := .Adding 1 "" "" none }, [])
      | 1 => ({ s with mode := if s.aliases.isEmpty then .Main else .EditingSelect }, [])
      | 2 =>
          if s.aliases.isEmpty then
            ({ s with mode := .Message "No aliases to remove" }, [])
          else
            ({ s with mode := .RemovingSelect }, [])
      | 3 => (s, [.spawnShell s.default_shell])
      | 4 => (s, [.quit])
      | _ => (s, [])
  | .Char c =>
      match find_by_keybind s.aliases c with
      | some idx =>
          match s.aliases[idx]? with
          | some a => (s, [.runCommand a.command s.default_shell])
          | none => (s, [])
      | none => (s, [])
  | _ => (s, [])

/-- `Main`-mode keys with focus on the alias list (src/main.rs:328-355):
Up/Down move the alias cursor with wraparound, Enter runs the selected
alias's command. -/
def handleMainAliases (s : AppState) (key : KeyCode) : AppState × List Effect :=
  match key with
  | .Up => ({ s with aliasSel := move_up s.aliases.length s.aliasSel }, [])
  | .Down => ({ s with aliasSel := move_down s.aliases.length s.aliasSel }, [])
  | .Enter =>
      match s.aliasSel with
      | some i =>
          match s.aliases[i]? with
          | some a => (s, [.runCommand a.command s.default_shell])
          | none => (s, [])
      | none => (s, [])
  | _ => (s, [])

/-- `Adding`-mode keys (src/main.rs:358-389): Esc discards, Enter advances
the step or commits the new alias (appending it, persisting, and moving the
cursor), Backspace edits the step's field (ignored at step 3), and a
character appends to the step's field (step 3 replaces the keybind). -/
def handleAdding (s : AppState) (st : Nat) (name command : String)
    (keybind : Option Char) (key : KeyCode) : AppState × List Effect :=
  match key with
  | .Esc => ({ s with mode := .Main }, [])
  | .Enter =>
      if st = 1 then ({ s with mode := .Adding 2 name command keybind }, [])
      else if st = 2 then ({ s with mode := .Adding 3 name command keybind }, [])
      else
        let aliases := s.aliases ++ [⟨name, command, keybind⟩]
        let sel := if s.aliasSel.isNone then some 0 else some (aliases.length - 1)
        ({ s with aliases := aliases, aliasSel := sel, mode := .Main },
         [.writeConfig (write_config_map aliases) s.default_shell])
  | .Backspace =>
      if st = 1 then ({ s with mode := .Adding st (name.dropRight 1) command keybind }, [])
      else if st = 2 then
        ({ s with mode := .Adding st name (command.dropRight 1) keybind }, [])
      else (s, [])
  | .Char c =>
      if st = 1 then ({ s with mode := .Adding st (name.push c) command keybind }, [])
      else if st = 2 then ({ s with mode := .Adding st name (command.push c) keybind }, [])
      else if st = 3 then ({ s with mode := .Adding st name command (some c) }, [])
      else (s, [])
  | _ => (s, [])

/-- `EditingSelect`-mode keys (src/main.rs:390-409): Up/Down move the shared
alias cursor, Enter loads the selected alias's command into a fresh
`Editing` buffer, Esc returns to `Main`. -/
def handleEditingSelect (s : AppState) (key : KeyCode) : AppState × List Effect :=
  match key with
  | .Up => ({ s with aliasSel := move_up s.aliases.length s.aliasSel }, [])
  | .Down => ({ s with aliasSel := move_down s.aliases.length s.aliasSel }, [])
  | .Enter =>
      match s.aliasSel with
      | some idx =>
          match s.aliases[idx]? with
          | some a => ({ s with mode := .Editing idx a.command }, [])
          | none => (s, [])
      | none => (s, [])
  | .Esc => ({ s with mode := .Main }, [])
  | _ => (s, [])

/-- `Editing`-mode keys (src/main.rs:410-422): Esc discards, Enter commits
the buffer to the alias at `index` and persists, Backspace/character edit
the in-memory buffer only. -/
def handleEditing (s : AppState) (index : Nat) (command : String)
    (key : KeyCode) : AppState × List Effect :=
  match key with
  | .Esc => ({ s with mode := .Main }, [])
  | .Enter =>
      let aliases := update_command s.aliases index command
      ({ s with aliases := aliases, mode := .Main },
       [.writeConfig (write_config_map aliases) s.default_shell])
  | .Backspace => ({ s with mode := .Editing index (command.dropRight 1) }, [])
  | .Char c => ({ s with mode := .Editing index (command.push c) }, [])
  | _ => (s, [])

/-- `RemovingSelect`-mode keys (src/main.rs:423-448): Up on an empty list
returns to `Main`, otherwise Up/Down move the cursor; Enter removes the
selected alias, persists, and resets the cursor; Esc returns to `Main`. -/
def handleRemovingSelect (s : AppState) (key : KeyCode) : AppState × List Effect :=
  match key with
  | .Up =>
      if s.aliases.isEmpty then ({ s with mode := .Main }, [])
      else ({ s with aliasSel := move_up s.aliases.length s.aliasSel }, [])
  | .Down => ({ s with aliasSel := move_down s.aliases.length s.aliasSel }, [])
  | .Enter =>
      match s.aliasSel with
      | some idx =>
          let aliases := s.aliases.eraseIdx idx
          let sel := if aliases.isEmpty then none else some 0
          ({ s with aliases := aliases, aliasSel := sel, mode := .Main },
           [.writeConfig (write_config_map aliases) s.default_shell])
      | none => (s, [])
  | .Esc => ({ s with mode := .Main }, [])
  | _ => (s, [])

/-- The per-mode dispatch of a non-Tab key (src/main.rs:265-454). -/
def dispatchKey (s : AppState) (key : KeyCode) : AppState × List Effect :=
  match s.mode with
  | .Main =>
      match s.focus with
      | .Actions => handleMainActions s key
      | .Aliases => handleMainAliases s key
  | .Adding st name command keybind => handleAdding s st name command keybind key
  | .EditingSelect => handleEditingSelect s key
  | .Editing index command => handleEditing s index command key
  | .RemovingSelect => handleRemovingSelect s key
  | .Message _ => ({ s with mode := .Main }, [])

/-- One iteration of the event handling of the `main` loop
(src/main.rs:243-458), as a pure transition: the next state plus the
observable side effects of the iteration. The Tab arm runs before the mode
dispatch in every mode (src/main.rs:248-263); resize and non-key events
only trigger a redraw (src/main.rs:456-457). Branches where Rust would
panic on an out-of-range `Vec` index (src/main.rs:344, 402, 439) are
modelled as leaving the state unchanged; the cursor invariant proved below
shows they are in range on every reachable state. -/
def step (s : AppState) (ev : Event) : AppState × List Effect :=
  match ev with
  | .Key key =>
      match key with
      | .Tab => (handleTab s, [])
      | _ => dispatchKey s key
  | .Resize _ _ => (s, [])
  | .OtherEvent => (s, [])

/-- The state the loop starts in (src/main.rs:128-138): `selected_opt = 0`,
`opt_state` on `Some(0)`, the alias cursor on `Some(0)` iff the loaded
aliases are non-empty, focus on `Actions`, mode `Main`. -/
def initState (aliases : List Alias) (default_shell : String) : AppState :=
  { aliases := aliases
    aliasSel := if aliases.isEmpty then none else some 0
    optSel := some 0
    selectedOpt := 0
    focus := .Actions
    mode := .Main
    default_shell := default_shell }

/-- Run a sequence of events through the loop, keeping the state. -/
def runEvents (s : AppState) (evs : List Event) : AppState :=
  evs.foldl (fun s e => (step s e).1) s

/-- One full iteration of the `main` loop at a given terminal size:
the draw closure consults the size (src/main.rs:146) but the input
handling (src/main.rs:243-458) never does, so the transition is `step`
regardless of `w` and `h`. -/
def loopIteration (w h : Nat) (s : AppState) (ev : Event) : AppState × List Effect :=
  let _ := drawKind w h
  step s ev

/-- The selection-cursor invariant of the spec: the cursor is `none` iff the
alias list is empty, otherwise some in-range index. -/
def cursorOk (aliases : List Alias) (sel : Option Nat) : Bool :=
  match sel with
  | none => aliases.isEmpty
  | some i => decide (i < aliases.length)

/-- Lowercase hexadecimal digit, as used by serde_json's `\u00XX` escapes. -/
def hexDigitChar (n : Nat) : Char :=
  if n < 10 then Char.ofNat (48 + n) else Char.ofNat (87 + n)

/-- serde_json's escaping of one character inside a JSON string: quote and
backslash are escaped, control characters use the short escapes or `\u00XX`,
everything else is emitted as-is. -/
def escapeJsonChar (c : Char) : String :=
  if c = '"' then "\\\""
  else if c = '\\' then "\\\\"
  else if c.toNat = 8 then "\\b"
  else if c.toNat = 9 then "\\t"
  else if c.toNat = 10 then "\\n"
  else if c.toNat = 12 then "\\f"
  else if c.toNat = 13 then "\\r"
  else if c.toNat < 32 then
    String.mk ['\\', 'u', '0', '0', hexDigitChar (c.toNat / 16), hexDigitChar (c.toNat % 16)]
  else String.singleton c

/-- A JSON string literal, quotes included. -/
def jsonString (s : String) : String :=
  "\"" ++ String.join (s.toList.map escapeJsonChar) ++ "\""

/-- One member of the `"aliases"` object as printed by
`serde_json::to_string_pretty` at nesting depth 2 (two-space indent):
the `AliasEntry` struct fields in declaration order, the keybind as a
string or `null`. -/
def serializeAliasEntry (name : String) (e : AliasEntry) : String :=
  "    " ++ jsonString name ++ ": \x7b\n      \"command\": " ++ jsonString e.command
    ++ ",\n      \"keybind\": "
    ++ (match e.keybind with
        | none => "null"
        | some k => jsonString k)
    ++ "\n    \x7d"

/-- `serde_json::to_string_pretty` of a `ConfigFile` (the bytes
`write_config` writes, src/main.rs:70-72), given the map entries in the
iteration order of the `HashMap`: the struct fields in declaration order
(`aliases` then `default-shell`), two-space indentation, empty objects
printed inline. -/
def serializeConfigFile (entries : List (String × AliasEntry))
    (default_shell : String) : String :=
  "\x7b\n  \"aliases\": "
    ++ (if entries.isEmpty then "\x7b\x7d"
        else "\x7b\n"
          ++ String.intercalate ",\n" (entries.map fun p => serializeAliasEntry p.1 p.2)
          ++ "\n  \x7d")
    ++ ",\n  \"default-shell\": " ++ jsonString default_shell ++ "\n\x7d"

/-- JSON values, for modelling `serde_json::from_str` in `ensure_config`.
Numbers keep their raw token; objects keep members in textual order. -/
inductive Json where
  | null
  | jbool (b : Bool)
  | jnum (raw : String)
  | jstr (s : String)
  | jarr (xs : List Json)
  | jobj (fields : List (String × Json))

def isWsChar (c : Char) : Bool :=
  c = ' ' || c = '\n' || c = '\t' || c = Char.ofNat 13

def skipWs : List Char → List Char
  | [] => []
  | c :: rest => if isWsChar c then skipWs rest else c :: rest

def hexVal? (c : Char) : Option Nat :=
  if '0' ≤ c ∧ c ≤ '9' then some (c.toNat - 48)
  else if 'a' ≤ c ∧ c ≤ 'f' then some (c.toNat - 87)
  else if 'A' ≤ c ∧ c ≤ 'F' then some (c.toNat - 55)
  else none

/-- Parse the remainder of a JSON string literal (the opening quote already
consumed), handling the standard escapes; `\uXXXX` surrogate halves are
rejected. Fuel-driven; one unit of fuel is spent per character. -/
def parseJsonStr : Nat → List Char → Option (String × List Char)
  | 0, _ => none
  | _, [] => none
  | fuel + 1, c :: rest =>
    if c = '"' then some ("", rest)
    else if c = '\\' then
      match rest with
      | [] => none
      | e :: rest2 =>
        if e = 'u' then
          match rest2 with
          | h1 :: h2 :: h3 :: h4 :: rest3 =>
            match hexVal? h1, hexVal? h2, hexVal? h3, hexVal? h4 with
            | some v1, some v2, some v3, some v4 =>
                let n := ((v1 * 16 + v2) * 16 + v3) * 16 + v4
                if 0xD800 ≤ n ∧ n < 0xE000 then none
                else
                  match parseJsonStr fuel rest3 with
                  | some (s, r) => some (String.singleton (Char.ofNat n) ++ s, r)
                  | none => none
            | _, _, _, _ => none
          | _ => none
        else
          match
            (if e = '"' then some '"'
             else if e = '\\' then some '\\'
             else if e = '/' then some '/'
             else if e = 'b' then some (Char.ofNat 8)
             else if e = 'f' then some (Char.ofNat 12)
             else if e = 'n' then some '\n'
             else if e = 'r' then some (Char.ofNat 13)
             else if e = 't' then some '\t'
             else none) with
          | some ec =>
              match parseJsonStr fuel rest2 with
              | some (s, r) => some (String.singleton ec ++ s, r)
              | none => none
          | none => none
    else if c.toNat < 32 then none
    else
      match parseJsonStr fuel rest with
      | some (s, r) => some (String.singleton c ++ s, r)
      | none => none

def isNumChar (c : Char) : Bool :=
  c.isDigit || c = '-' || c = '+' || c = '.' || c = 'e' || c = 'E'

mutual

/-- Parse one JSON value, leading whitespace allowed. Fuel-driven. -/
def parseValue : Nat → List Char → Option (Json × List Char)
  | 0, _ => none
  | fuel + 1, input =>
    match skipWs input with
    | [] => none
    | c :: r =>
      if c = 'n' then
        match r with
        | 'u' :: 'l' :: 'l' :: r2 => some (.null, r2)
        | _ => none
      else if c = 't' then
        match r with
        | 'r' :: 'u' :: 'e' :: r2 => some (.jbool true, r2)
        | _ => none
      else if c = 'f' then
        match r with
        | 'a' :: 'l' :: 's' :: 'e' :: r2 => some (.jbool false, r2)
        | _ => none
      else if c = '"' then
        match parseJsonStr (r.length + 1) r with
        | some (s, r2) => some (.jstr s, r2)
        | none => none
      else if c = Char.ofNat 123 then
        match skipWs r with
        | [] => none
        | c2 :: r2 =>
            if c2 = Char.ofNat 125 then some (.jobj [], r2)
            else parseMembers fuel (c2 :: r2)
      else if c = '[' then
        match skipWs r with
        | [] => none
        | c2 :: r2 =>
            if c2 = ']' then some (.jarr [], r2)
            else parseItems fuel (c2 :: r2)
      else if c = '-' || c.isDigit then
        match (c :: r).span isNumChar with
        | (tok, rest) => some (.jnum (String.mk tok), rest)
      else none

/-- Parse the members of a non-empty JSON object, positioned at the first
member's key; consumes the closing brace. -/
def parseMembers : Nat → List Char → Option (Json × List Char)
  | 0, _ => none
  | fuel + 1, input =>
    match input with
    | [] => none
    | c :: r =>
      if c = '"' then
        match parseJsonStr (r.length + 1) r with
        | some (key, r2) =>
          match skipWs r2 with
          | ':' :: r3 =>
            match parseValue fuel r3 with
            | some (v, r4) =>
              match skipWs r4 with
              | [] => none
              | c5 :: r5 =>
                if c5 = ',' then
                  match parseMembers fuel (skipWs r5) with
                  | some (.jobj rest, r6) => some (.jobj ((key, v) :: rest), r6)
                  | _ => none
                else if c5 = Char.ofNat 125 then some (.jobj [(key, v)], r5)
                else none
            | none => none
          | _ => none
        | none => none
      else none

/-- Parse the items of a non-empty JSON array, positioned at the first
item; consumes the closing bracket. -/
def parseItems : Nat → List Char → Option (Json × List Char)
  | 0, _ => none
  | fuel + 1, input =>
    match parseValue fuel input with
    | some (v, r) =>
      match skipWs r with
      | [] => none
      | c2 :: r2 =>
        if c2 = ',' then
          match parseItems fuel r2 with
          | some (.jarr rest, r3) => some (.jarr (v :: rest), r3)
          | _ => none
        else if c2 = ']' then some (.jarr [v], r2)
        else none
    | none => none

end

/-- `serde_json` parse of a whole document: one value, then only trailing
whitespace. -/
def parseJson (s : String) : Option Json :=
  match parseValue (s.length + 2) s.toList with
  | some (v, rest) => if (skipWs rest).isEmpty then some v else none
  | none => none

/-- All values bound to key `k` in a JSON object's members, in order. -/
def jsonLookups (fields : List (String × Json)) (k : String) : List Json :=
  fields.filterMap fun p => if p.1 = k then some p.2 else none

/-- serde deserialization of `AliasEntry`: an object with a required string
field `command` and an optional field `keybind` (absent or `null` gives
`None`, a string gives `Some`); a duplicated or ill-typed field is an
error, unknown fields are ignored. -/
def entryFromJson : Json → Option AliasEntry
  | .jobj fields =>
      match jsonLookups fields "command" with
      | [.jstr cmd] =>
          match jsonLookups fields "keybind" with
          | [] => some ⟨cmd, none⟩
          | [.null] => some ⟨cmd, none⟩
          | [.jstr k] => some ⟨cmd, some k⟩
          | _ => none
      | _ => none
  | _ => none

/-- serde deserialization of `HashMap<String, AliasEntry>`: an object whose
member values all deserialize as `AliasEntry`; later duplicate keys
overwrite earlier ones via `HashMap::insert`. -/
def aliasMapFromJson : Json → Option (List (String × AliasEntry))
  | .jobj fields =>
      fields.foldlM (fun m p =>
        (entryFromJson p.2).map fun e => hmInsert m p.1 e) []
  | _ => none

/-- serde deserialization of `ConfigFile`: an object with required fields
`aliases` (a map) and `default-shell` (a string); duplicated known fields
are an error, unknown fields are ignored. -/
def configFromJson : Json → Option ConfigFile
  | .jobj fields =>
      match jsonLookups fields "aliases" with
      | [av] =>
          match aliasMapFromJson av with
          | some m =>
              match jsonLookups fields "default-shell" with
              | [.jstr ds] => some ⟨m, ds⟩
              | _ => none
          | none => none
      | _ => none
  | _ => none

/-- `serde_json::from_str::<ConfigFile>` (src/main.rs:86). -/
def parseConfig (s : String) : Option ConfigFile :=
  (parseJson s).bind configFromJson

/-- The `SHELL` environment fallback (src/main.rs:86):
`std::env::var("SHELL").unwrap_or_else(|_| "sh".into())`. -/
def envFallbackShell (envShell : Option String) : String :=
  envShell.getD "sh"

/-- `ensure_config` (src/main.rs:75-88), over the relevant bits of the
environment: whether the file exists, its contents (read errors give the
empty string via `unwrap_or_default`), and the `SHELL` environment
variable. Returns the loaded `ConfigFile` together with the bytes written
to the path, if any: a missing file gets the hardcoded
`default_shell: "/bin/bash"` default written immediately; an existing but
unparseable file falls back in memory to an empty map with the `SHELL`
environment fallback and writes nothing. -/
def ensure_config (fileExists : Bool) (fileData : String)
    (envShell : Option String) : ConfigFile × Option String :=
  if !fileExists then
    let cfg : ConfigFile := ⟨[], "/bin/bash"⟩
    (cfg, some (serializeConfigFile cfg.aliases cfg.default_shell))
  else
    match parseConfig fileData with
    | some cfg => (cfg, none)
    | none => (⟨[], envFallbackShell envShell⟩, none)

/-- The conversion of the loaded config map into the in-memory alias vector
(src/main.rs:120-124), in a given `HashMap` iteration order; the keybind
becomes the first character of the stored string, if any. -/
def loadAliases (entries : List (String × AliasEntry)) : List Alias :=
  entries.map fun p => ⟨p.1, p.2.command, p.2.keybind.bind fun s => s.toList.head?⟩

/-- A concrete state showing the informational message: reached from
`initState [] "/bin/bash"` by Down, Down, Enter (selecting "Remove an
alias" with no aliases, src/main.rs:280-281). -/
def msgState : AppState :=
  { aliases := []
    aliasSel := none
    optSel := some 2
    selectedOpt := 2
    focus := .Actions
    mode := .Message "No aliases to remove"
    default_shell := "/bin/bash" }

/-- A concrete `EditingSelect` state whose alias list is non-empty while
nothing is selected, exercising the Tab auto-select branch
(src/main.rs:256). -/
def editSelState : AppState :=
  { aliases := [⟨"build", "cargo build", some 'b'⟩]
    aliasSel := none
    optSel := some 0
    selectedOpt := 0
    focus := .Actions
    mode := .EditingSelect
    default_shell := "/bin/bash" }

/-- Two aliases sharing the keybind `k`, for exercising first-match lookup. -/
def demoTwo : List Alias :=
  [⟨"first", "echo one", some 'k'⟩, ⟨"second", "echo two", some 'k'⟩]

theorem cursorOk_iff (l : List Alias) (sel : Option Nat) :
    cursorOk l sel = true ↔
      (match sel with
       | none => l.length = 0
       | some i => i < l.length) := by
  cases sel <;> simp [cursorOk, List.isEmpty_iff, List.length_eq_zero]

theorem cursorOk_move_up (l : List Alias) (sel : Option Nat)
    (h : cursorOk l sel = true) : cursorOk l (move_up l.length sel) = true := by
  cases sel with
  | none =>
      have hl : l.length = 0 := (cursorOk_iff l none).mp h
      simpa [move_up, hl] using h
  | some i =>
      have hi : i < l.length := (cursorOk_iff l (some i)).mp h
      have hl : ¬ l.length = 0 := by omega
      rw [cursorOk_iff]
      simp only [move_up, hl, if_false, Option.getD_some]
      split <;> omega

theorem cursorOk_move_down (l : List Alias) (sel : Option Nat)
    (h : cursorOk l sel = true) : cursorOk l (move_down l.length sel) = true := by
  cases sel with
  | none =>
      have hl : l.length = 0 := (cursorOk_iff l none).mp h
      simpa [move_down, hl] using h
  | some i =>
      have hi : i < l.length := (cursorOk_iff l (some i)).mp h
      have hl : ¬ l.length = 0 := by omega
      rw [cursorOk_iff]
      simp only [move_down, hl, if_false, Option.getD_some]
      exact Nat.mod_lt _ (by omega)

theorem cursorOk_reset (l : List Alias) :
    cursorOk l (if l.isEmpty then none else some 0) = true := by
  cases l <;> simp [cursorOk]

theorem cursorOk_append (al : List Alias) (a : Alias) (sel : Option Nat) :
    cursorOk (al ++ [a])
      (if sel.isNone then some 0 else some ((al ++ [a]).length - 1)) = true := by
  cases sel <;> simp [cursorOk]

theorem update_command_length (l : List Alias) (i : Nat) (c : String) :
    (update_command l i c).length = l.length := by
  unfold update_command
  cases h : l[i]? <;> simp

theorem cursorOk_handleTab (s : AppState)
    (h : cursorOk s.aliases s.aliasSel = true) :
    cursorOk (handleTab s).aliases (handleTab s).aliasSel = true := by
  obtain ⟨al, sel, os, so, fc, md, ds⟩ := s
  cases fc with
  | Aliases => simpa [handleTab, toggleFocus] using h
  | Actions =>
      by_cases hc : sel.isNone && !al.isEmpty
      · have h2 : al.isEmpty = false := by
          rcases Bool.and_eq_true_iff.mp hc with ⟨_, h2⟩
          simpa using h2
        have : 0 < al.length := by
          cases al
          · simp at h2
          · simp
        simp [handleTab, toggleFocus, hc, cursorOk, this]
      · simpa [handleTab, toggleFocus, hc] using h

theorem cursorOk_handleMainActions (s : AppState) (key : KeyCode)
    (h : cursorOk s.aliases s.aliasSel = true) :
    cursorOk (handleMainActions s key).1.aliases
      (handleMainActions s key).1.aliasSel = true := by
  obtain ⟨al, sel, os, so, fc, md, ds⟩ := s
  cases key <;> simp only [handleMainActions] <;> try exact h
  · -- Enter
    rcases so with _ | _ | _ | _ | _ | so <;> simp only []
    · exact h
    · exact h
    · split <;> exact h
    · exact h
    · exact h
    · exact h
  · -- Char
    rename_i c
    rcases hf : find_by_keybind al c with _ | idx
    · exact h
    · rcases ha : al[idx]? with _ | a <;> simp only [hf, ha] <;> exact h

theorem cursorOk_handleMainAliases (s : AppState) (key : KeyCode)
    (h : cursorOk s.aliases s.aliasSel = true) :
    cursorOk (handleMainAliases s key).1.aliases
      (handleMainAliases s key).1.aliasSel = true := by
  obtain ⟨al, sel, os, so, fc, md, ds⟩ := s
  cases key <;> simp only [handleMainAliases] <;> try exact h
  · exact cursorOk_move_up al sel h
  · exact cursorOk_move_down al sel h
  · cases sel with
    | none => exact h
    | some i => rcases ha : al[i]? with _ | a <;> simp only [ha] <;> exact h

theorem cursorOk_handleAdding (s : AppState) (st : Nat) (name command : String)
    (keybind : Option Char) (key : KeyCode)
    (h : cursorOk s.aliases s.aliasSel = true) :
    cursorOk (handleAdding s st name command keybind key).1.aliases
      (handleAdding s st name command keybind key).1.aliasSel = true := by
  obtain ⟨al, sel, os, so, fc, md, ds⟩ := s
  cases key <;> simp only [handleAdding] <;> try exact h
  · -- Enter
    by_cases h1 : st = 1
    · simpa [h1] using h
    · by_cases h2 : st = 2
      · simpa [h1, h2] using h
      · simpa [h1, h2] using cursorOk_append al ⟨name, command, keybind⟩ sel
  · -- Backspace
    by_cases h1 : st = 1
    · simpa [h1] using h
    · by_cases h2 : st = 2 <;> simpa [h1, h2] using h
  · -- Char
    by_cases h1 : st = 1
    · simpa [h1] using h
    · by_cases h2 : st = 2
      · simpa [h1, h2] using h
      · by_cases h3 : st = 3 <;> simpa [h1, h2, h3] using h

theorem cursorOk_handleEditingSelect (s : AppState) (key : KeyCode)
    (h : cursorOk s.aliases s.aliasSel = true) :
    cursorOk (handleEditingSelect s key).1.aliases
      (handleEditingSelect s key).1.aliasSel = true := by
  obtain ⟨al, sel, os, so, fc, md, ds⟩ := s
  cases key <;> simp only [handleEditingSelect] <;> try exact h
  · exact cursorOk_move_up al sel h
  · exact cursorOk_move_down al sel h
  · cases sel with
    | none => exact h
    | some i => rcases ha : al[i]? with _ | a <;> simp only [ha] <;> exact h

theorem cursorOk_handleEditing (s : AppState) (index : Nat) (command : String)
    (key : KeyCode) (h : cursorOk s.aliases s.aliasSel = true) :
    cursorOk (handleEditing s index command key).1.aliases
      (handleEditing s index command key).1.aliasSel = true := by
  obtain ⟨al, sel, os, so, fc, md, ds⟩ := s
  cases key <;> simp only [handleEditing] <;> try exact h
  · -- Enter
    rw [cursorOk_iff] at h ⊢
    simpa [update_command_length] using h

theorem cursorOk_handleRemovingSelect (s : AppState) (key : KeyCode)
    (h : cursorOk s.aliases s.aliasSel = true) :
    cursorOk (handleRemovingSelect s key).1.aliases
      (handleRemovingSelect s key).1.aliasSel = true := by
  obtain ⟨al, sel, os, so, fc, md, ds⟩ := s
  cases key <;> simp only [handleRemovingSelect] <;> try exact h
  · -- Up
    by_cases he : al.isEmpty
    · simpa [he] using h
    · simpa [he] using cursorOk_move_up al sel h
  · exact cursorOk_move_down al sel h
  · -- Enter
    cases sel with
    | none => exact h
    | some i => simpa using cursorOk_reset (al.eraseIdx i)

theorem cursorOk_step (s : AppState) (e : Event)
    (h : cursorOk s.aliases s.aliasSel = true) :
    cursorOk (step s e).1.aliases (step s e).1.aliasSel = true := by
  cases e with
  | Resize w h' => exact h
  | OtherEvent => exact h
  | Key k =>
      have hdisp : cursorOk (dispatchKey s k).1.aliases
          (dispatchKey s k).1.aliasSel = true := by
        unfold dispatchKey
        cases hm : s.mode with
        | Main =>
            cases hf : s.focus with
            | Actions => exact cursorOk_handleMainActions s k h
            | Aliases => exact cursorOk_handleMainAliases s k h
        | Adding st name cmd kb => exact cursorOk_handleAdding s st name cmd kb k h
        | EditingSelect => exact cursorOk_handleEditingSelect s k h
        | Editing idx cmd => exact cursorOk_handleEditing s idx cmd k h
        | RemovingSelect => exact cursorOk_handleRemovingSelect s k h
        | Message t => exact h
      cases k with
      | Tab => exact cursorOk_handleTab s h
      | Up => exact hdisp
      | Down => exact hdisp
      | Enter => exact hdisp
      | Esc => exact hdisp
      | Backspace => exact hdisp
      | Char c => exact hdisp
      | Other => exact hdisp

theorem cursorOk_runEvents (s : AppState) (evs : List Event)
    (h : cursorOk s.aliases s.aliasSel = true) :
    cursorOk (runEvents s evs).aliases (runEvents s evs).aliasSel = true := by
  induction evs generalizing s with
  | nil => simpa [runEvents] using h
  | cons e evs ih =>
      have := cursorOk_step s e h
      simpa [runEvents, List.foldl_cons] using ih _ this

theorem cursorOk_initState (l : List Alias) (ds : String) :
    cursorOk (initState l ds).aliases (initState l ds).aliasSel = true := by
  simpa [initState] using cursorOk_reset l

theorem find_by_keybind_spec (l : List Alias) (c : Char) (i : Nat)
    (h : find_by_keybind l c = some i) :
    ∃ a, l[i]? = some a ∧ a.keybind = some c ∧
      ∀ j, j < i → ∀ b, l[j]? = some b → b.keybind ≠ some c := by
  induction l generalizing i with
  | nil => simp [find_by_keybind] at h
  | cons a rest ih =>
      by_cases hp : a.keybind = some c
      · have hi : i = 0 := by
          have := h
          simp [find_by_keybind, hp] at this
          omega
        subst hi
        exact ⟨a, by simp, hp, fun j hj => by omega⟩
      · have h' : ∃ i', find_by_keybind rest c = some i' ∧ i' + 1 = i := by
          simpa [find_by_keybind, hp, Option.map_eq_some'] using h
        obtain ⟨i', hi', hEq⟩ := h'
        subst hEq
        obtain ⟨b, hb, hkb, hfirst⟩ := ih i' hi'
        refine ⟨b, by simpa using hb, hkb, ?_⟩
        intro j hj b' hb'
        cases j with
        | zero =>
            have ha : a = b' := by simpa using hb'
            subst ha
            exact hp
        | succ j' =>
            have hb'' : rest[j']? = some b' := by simpa using hb'
            exact hfirst j' (by omega) b' hb''

theorem find_by_keybind_eq_none (l : List Alias) (c : Char)
    (h : ∀ a ∈ l, a.keybind ≠ some c) : find_by_keybind l c = none := by
  induction l with
  | nil => rfl
  | cons a rest ih =>
      have hp : a.keybind ≠ some c := h a (by simp)
      have hr := ih fun b hb => h b (by simp [hb])
      simp [find_by_keybind, hp, hr]

theorem find_by_keybind_isSome (l : List Alias) (c : Char)
    (h : ∃ a ∈ l, a.keybind = some c) : ∃ i, find_by_keybind l c = some i := by
  induction l with
  | nil => simp at h
  | cons a rest ih =>
      by_cases hp : a.keybind = some c
      · exact ⟨0, by simp [find_by_keybind, hp]⟩
      · obtain ⟨b, hb, hkb⟩ := h
        have hbr : b ∈ rest := by
          rcases List.mem_cons.mp hb with rfl | hbr
          · exact absurd hkb hp
          · exact hbr
        obtain ⟨i, hi⟩ := ih ⟨b, hbr, hkb⟩
        exact ⟨i + 1, by simp [find_by_keybind, hp, hi]⟩

theorem keybind_no_match_noop (s : AppState) (c : Char) (hm : s.mode = .Main)
    (hf : s.focus = .Actions) (hn : find_by_keybind s.aliases c = none) :
    step s (.Key (.Char c)) = (s, []) := by
  simp [step, dispatchKey, hm, hf, handleMainActions, hn]

theorem lookup_cons (k' : String) (v' : AliasEntry)
    (rest : List (String × AliasEntry)) (n : String) :
    ((k', v') :: rest).lookup n = if n = k' then some v' else rest.lookup n := by
  by_cases hn : n = k'
  · have hb : (n == k') = true := by simpa using hn
    simp [List.lookup, hb, hn]
  · have hb : (n == k') = false := by simpa using hn
    simp [List.lookup, hb, hn]

theorem lookup_hmInsert (m : List (String × AliasEntry)) (k : String)
    (v : AliasEntry) (n : String) :
    (hmInsert m k v).lookup n = if n = k then some v else m.lookup n := by
  induction m with
  | nil => simpa [List.lookup] using lookup_cons k v [] n
  | cons p rest ih =>
      obtain ⟨k', v'⟩ := p
      by_cases hk : k' = k
      · subst hk
        by_cases hn : n = k' <;> simp [hmInsert, lookup_cons, hn]
      · have hstep : hmInsert ((k', v') :: rest) k v = (k', v') :: hmInsert rest k v := by
          simp [hmInsert, hk]
        by_cases hn : n = k'
        · subst hn
          have hnk : ¬ n = k := hk
          rw [hstep, lookup_cons, lookup_cons]
          simp [hnk]
        · rw [hstep, lookup_cons, lookup_cons, ih]
          by_cases hnk : n = k
          · simp only [hn, hnk, if_true, if_false]
            rw [if_neg fun hc => hk hc.symm]
          · simp [hn, hnk]

theorem mem_keys_hmInsert (m : List (String × AliasEntry)) (k : String)
    (v : AliasEntry) (n : String) :
    n ∈ (hmInsert m k v).map Prod.fst ↔ n = k ∨ n ∈ m.map Prod.fst := by
  induction m with
  | nil => simp [hmInsert]
  | cons p rest ih =>
      obtain ⟨k', v'⟩ := p
      by_cases hk : k' = k
      · subst hk
        simp [hmInsert]
      · have hstep : hmInsert ((k', v') :: rest) k v = (k', v') :: hmInsert rest k v := by
          simp [hmInsert, hk]
        rw [hstep]
        simp only [List.map_cons, List.mem_cons, ih]
        tauto

theorem nodup_keys_hmInsert (m : List (String × AliasEntry)) (k : String)
    (v : AliasEntry) (h : (m.map Prod.fst).Nodup) :
    ((hmInsert m k v).map Prod.fst).Nodup := by
  induction m with
  | nil => simp [hmInsert]
  | cons p rest ih =>
      obtain ⟨k', v'⟩ := p
      simp only [List.map_cons, List.nodup_cons] at h
      obtain ⟨hk', hrest⟩ := h
      by_cases hk : k' = k
      · subst hk
        have hstep : hmInsert ((k', v') :: rest) k' v = (k', v) :: rest := by
          simp [hmInsert]
        rw [hstep]
        simp only [List.map_cons, List.nodup_cons]
        exact ⟨hk', hrest⟩
      · have hmem : k' ∉ (hmInsert rest k v).map Prod.fst := by
          rw [mem_keys_hmInsert]
          push_neg
          exact ⟨hk, hk'⟩
        have hstep : hmInsert ((k', v') :: rest) k v = (k', v') :: hmInsert rest k v := by
          simp [hmInsert, hk]
        rw [hstep]
        simp only [List.map_cons, List.nodup_cons]
        exact ⟨hmem, ih hrest⟩

theorem lookup_some_mem_keys (m : List (String × AliasEntry)) (n : String)
    (v : AliasEntry) (h : m.lookup n = some v) : n ∈ m.map Prod.fst := by
  induction m with
  | nil => simp [List.lookup] at h
  | cons p rest ih =>
      obtain ⟨k', v'⟩ := p
      by_cases hn : n = k'
      · simp [hn]
      · rw [lookup_cons, if_neg hn] at h
        simp [ih h]

theorem foldl_hmInsert_lookup (l : List Alias) (m : List (String × AliasEntry))
    (n : String) :
    (l.foldl (fun m a =>
        hmInsert m a.name ⟨a.command, a.keybind.map Char.toString⟩) m).lookup n =
      match (l.filter fun a => a.name = n).getLast? with
      | some a => some ⟨a.command, a.keybind.map Char.toString⟩
      | none => m.lookup n := by
  induction l generalizing m with
  | nil => simp
  | cons a t ih =>
      rw [List.foldl_cons, ih]
      by_cases hn : a.name = n
      · rw [List.filter_cons_of_pos (by simpa using hn)]
        cases htf : (t.filter fun a => a.name = n) with
        | nil => simp [lookup_hmInsert, hn]
        | cons b tb =>
            rw [List.getLast?_cons_cons]
            cases hbl : (b :: tb).getLast? with
            | none => simp at hbl
            | some x => rfl
      · rw [List.filter_cons_of_neg (by simpa using hn)]
        cases htf : (t.filter fun a => a.name = n) with
        | nil =>
            have hnn : ¬ n = a.name := fun hc => hn hc.symm
            simp [lookup_hmInsert, hnn]
        | cons b tb =>
            cases hbl : (b :: tb).getLast? with
            | none => simp at hbl
            | some x => rfl

theorem write_config_map_lookup (l : List Alias) (n : String) :
    (write_config_map l).lookup n =
      ((l.filter fun a => a.name = n).getLast?).map
        (fun a => (⟨a.command, a.keybind.map Char.toString⟩ : AliasEntry)) := by
  unfold write_config_map
  rw [foldl_hmInsert_lookup]
  cases h : (l.filter fun a => a.name = n).getLast? <;> simp [List.lookup]

theorem nodup_keys_foldl_hmInsert (l : List Alias)
    (m : List (String × AliasEntry)) (hm : (m.map Prod.fst).Nodup) :
    ((l.foldl (fun m a =>
        hmInsert m a.name ⟨a.command, a.keybind.map Char.toString⟩) m).map
      Prod.fst).Nodup := by
  induction l generalizing m with
  | nil => exact hm
  | cons a t ih =>
      rw [List.foldl_cons]
      exact ih _ (nodup_keys_hmInsert _ _ _ hm)

theorem nodup_keys_write_config_map (l : List Alias) :
    ((write_config_map l).map Prod.fst).Nodup := by
  unfold write_config_map
  exact nodup_keys_foldl_hmInsert l [] (by simp)

/-- C1: for every sequence of add, edit and remove operations — indeed for
every sequence of input events whatsoever — starting from the initial
state, the alias-list selection cursor is `None` when the alias store is
empty and `Some i` with `0 ≤ i < len` when it is non-empty. -/
theorem selection_cursor_invariant (l : List Alias) (ds : String)
    (evs : List Event) :
    cursorOk (runEvents (initState l ds) evs).aliases
      (runEvents (initState l ds) evs).aliasSel = true :=
  cursorOk_runEvents _ evs (cursorOk_initState l ds)

/-- C2 counterexample: in `Message` mode (not `Main`) a Tab press does not
leave the state unchanged — it flips the focus from `Actions` to `Aliases`
while the mode stays `Message`. -/
theorem tab_active_outside_main_cex :
    msgState.mode ≠ UiMode.Main ∧
    (step msgState (.Key .Tab)).1 ≠ msgState ∧
    (step msgState (.Key .Tab)).1.focus = Focus.Aliases := by
  decide

/-- C2 (amended): the Tab key toggles `Focus` in every mode, not only in
`Main` — the Tab arm runs before the mode dispatch (src/main.rs:248-263).
It flips the focus, never changes the mode or the alias store, and when it
lands on `Aliases` focus with no current selection and a non-empty list it
selects index 0. -/
theorem tab_toggles_focus_in_every_mode (s : AppState) :
    (step s (.Key .Tab)).1.focus = toggleFocus s.focus ∧
    (step s (.Key .Tab)).1.mode = s.mode ∧
    (step s (.Key .Tab)).1.aliases = s.aliases ∧
    (s.focus = .Actions → s.aliasSel = none → s.aliases ≠ [] →
      (step s (.Key .Tab)).1.aliasSel = some 0) := by
  obtain ⟨al, sel, os, so, fc, md, ds⟩ := s
  cases fc with
  | Aliases => simp [step, handleTab, toggleFocus]
  | Actions =>
      by_cases hc : (sel.isNone && !al.isEmpty) = true
      · exact ⟨by simp [step, handleTab, toggleFocus, hc],
          by simp [step, handleTab, toggleFocus, hc],
          by simp [step, handleTab, toggleFocus, hc],
          fun _ _ _ => by simp [step, handleTab, toggleFocus, hc]⟩
      · have hconj : sel = none → al ≠ [] → False := by
          intro h1 h2
          apply hc
          subst h1
          simp [List.isEmpty_iff, h2]
        exact ⟨by simp [step, handleTab, toggleFocus, hc],
          by simp [step, handleTab, toggleFocus, hc],
          by simp [step, handleTab, toggleFocus, hc],
          fun _ hsel hne => (hconj hsel hne).elim⟩

/-- C2 witness: at `editSelState` (mode `EditingSelect`, focus `Actions`,
nothing selected, one alias) Tab flips the focus to `Aliases`, keeps the
mode and store, and selects index 0. -/
theorem tab_toggles_focus_in_every_mode_witness :
    (editSelState.focus = .Actions ∧ editSelState.aliasSel = none ∧
      editSelState.aliases ≠ []) ∧
    ((step editSelState (.Key .Tab)).1.focus = toggleFocus editSelState.focus ∧
     (step editSelState (.Key .Tab)).1.mode = editSelState.mode ∧
     (step editSelState (.Key .Tab)).1.aliases = editSelState.aliases ∧
     (step editSelState (.Key .Tab)).1.aliasSel = some 0) := by
  have h := tab_toggles_focus_in_every_mode editSelState
  exact ⟨⟨rfl, rfl, by decide⟩, h.1, h.2.1, h.2.2.1,
    h.2.2.2 rfl rfl (by decide)⟩

/-- C3 counterexample: a Tab key press received in `Message` mode does not
dismiss the message — the mode stays `Message`, not `Main`. -/
theorem message_tab_not_dismissed_cex :
    msgState.mode = UiMode.Message "No aliases to remove" ∧
    (step msgState (.Key .Tab)).1.mode ≠ UiMode.Main := by
  decide

/-- C3 (amended): every key press other than Tab received in `Message` mode
dismisses the message — the next mode is `Main`, the alias store and
selection cursor unchanged — while a Tab press keeps the `Message` mode up,
toggling the focus instead. -/
theorem message_any_key_but_tab_dismisses (s : AppState) (t : String)
    (k : KeyCode) (hm : s.mode = .Message t) (hk : k ≠ .Tab) :
    (step s (.Key k)).1.mode = .Main ∧
    (step s (.Key k)).1.aliases = s.aliases ∧
    (step s (.Key k)).1.aliasSel = s.aliasSel ∧
    (step s (.Key .Tab)).1.mode = .Message t := by
  have htab : (step s (.Key .Tab)).1.mode = .Message t := by
    obtain ⟨al, sel, os, so, fc, md, ds⟩ := s
    obtain rfl : md = .Message t := hm
    cases fc with
    | Aliases => simp [step, handleTab, toggleFocus]
    | Actions =>
        by_cases hc : (sel.isNone && !al.isEmpty) = true <;>
          simp [step, handleTab, toggleFocus, hc]
  have hdisp : dispatchKey s k = ({s with mode := .Main}, []) := by
    simp [dispatchKey, hm]
  have hstep : step s (.Key k) = ({s with mode := .Main}, []) := by
    cases k with
    | Tab => exact absurd rfl hk
    | Up => exact hdisp
    | Down => exact hdisp
    | Enter => exact hdisp
    | Esc => exact hdisp
    | Backspace => exact hdisp
    | Char c => exact hdisp
    | Other => exact hdisp
  rw [hstep]
  exact ⟨rfl, rfl, rfl, htab⟩

/-- C3 witness: at `msgState` an Esc press dismisses the message to `Main`
with store and cursor unchanged, while Tab leaves the message up. -/
theorem message_any_key_but_tab_dismisses_witness :
    msgState.mode = UiMode.Message "No aliases to remove" ∧
    KeyCode.Esc ≠ KeyCode.Tab ∧
    ((step msgState (.Key .Esc)).1.mode = .Main ∧
     (step msgState (.Key .Esc)).1.aliases = msgState.aliases ∧
     (step msgState (.Key .Esc)).1.aliasSel = msgState.aliasSel ∧
     (step msgState (.Key .Tab)).1.mode =
       UiMode.Message "No aliases to remove") :=
  ⟨rfl, by decide,
    message_any_key_but_tab_dismisses msgState "No aliases to remove" .Esc
      rfl (by decide)⟩

/-- C4 counterexample: at 10×5 — below the 40×10 minimum — an Enter key
press still causes a mode transition (from `Main` into `Adding`). -/
theorem small_terminal_transition_cex :
    sizeTooSmall 10 5 = true ∧
    (loopIteration 10 5 (initState [] "/bin/bash") (.Key .Enter)).1.mode ≠
      (initState [] "/bin/bash").mode := by
  decide

/-- C4 (amended): below 40×10 the draw pass renders only the warning, but
the input handler never consults the terminal size: a loop iteration
processes every event exactly as at any other size, so key presses still
cause their usual mode transitions; only rendering is restricted. -/
theorem small_terminal_renders_warning_but_input_unaffected
    (w h w2 h2 : Nat) (s : AppState) (ev : Event)
    (hsmall : sizeTooSmall w h = true) :
    drawKind w h = .warningOnly ∧
    loopIteration w h s ev = loopIteration w2 h2 s ev ∧
    loopIteration w h s ev = step s ev :=
  ⟨by simp [drawKind, hsmall], rfl, rfl⟩

/-- C4 witness: at the concrete size 10×5 with an Enter press from the
initial empty state, only the warning is drawn yet the event is handled
exactly as at 80×24. -/
theorem small_terminal_renders_warning_but_input_unaffected_witness :
    sizeTooSmall 10 5 = true ∧
    (drawKind 10 5 = .warningOnly ∧
     loopIteration 10 5 (initState [] "/bin/bash") (.Key .Enter) =
       loopIteration 80 24 (initState [] "/bin/bash") (.Key .Enter) ∧
     loopIteration 10 5 (initState [] "/bin/bash") (.Key .Enter) =
       step (initState [] "/bin/bash") (.Key .Enter)) :=
  ⟨by decide, small_terminal_renders_warning_but_input_unaffected 10 5 80 24
    (initState [] "/bin/bash") (.Key .Enter) (by decide)⟩

/-- C5 counterexample: with the `SHELL` environment variable "/bin/zsh" and
no config file, the loaded default shell is the hardcoded "/bin/bash", not
the environment fallback. -/
theorem missing_config_shell_cex :
    (ensure_config false "" (some "/bin/zsh")).1.default_shell = "/bin/bash" ∧
    envFallbackShell (some "/bin/zsh") = "/bin/zsh" ∧
    (ensure_config false "" (some "/bin/zsh")).1.default_shell ≠
      envFallbackShell (some "/bin/zsh") := by
  decide

/-- C5 (amended): when the config file does not exist, `ensure_config`
returns a default config with an empty alias mapping and the fixed default
shell "/bin/bash" — not an environment fallback — and immediately writes
that config's serialization to the path, so the file exists after first
run; the `SHELL`-or-"sh" environment fallback is used only when an existing
file fails to parse, and then nothing is written. -/
theorem ensure_config_missing_file_defaults (env : Option String)
    (data : String) (hbad : parseConfig data = none) :
    ensure_config false data env =
      (⟨[], "/bin/bash"⟩, some (serializeConfigFile [] "/bin/bash")) ∧
    ensure_config true data env = (⟨[], envFallbackShell env⟩, none) :=
  ⟨rfl, by simp [ensure_config, hbad]⟩

/-- C5 witness: with unparseable contents "not json" and `SHELL=/bin/zsh`,
a missing file yields the "/bin/bash" default plus an immediate write, and
an existing bad file yields the "/bin/zsh" fallback with no write. -/
theorem ensure_config_missing_file_defaults_witness :
    parseConfig "not json" = none ∧
    (ensure_config false "not json" (some "/bin/zsh") =
       (⟨[], "/bin/bash"⟩, some (serializeConfigFile [] "/bin/bash")) ∧
     ensure_config true "not json" (some "/bin/zsh") =
       (⟨[], envFallbackShell (some "/bin/zsh")⟩, none)) :=
  ⟨by decide, ensure_config_missing_file_defaults (some "/bin/zsh")
    "not json" (by decide)⟩

/-- C6: committing an edit at a valid index `i` replaces only the command
of the alias at `i`: the length is unchanged, the alias at `i` keeps its
name and keybind with the new command, and every other index is untouched. -/
theorem update_command_frame (l : List Alias) (i : Nat) (c : String)
    (h : i < l.length) :
    (update_command l i c).length = l.length ∧
    (∀ a, l[i]? = some a →
      (update_command l i c)[i]? = some ⟨a.name, c, a.keybind⟩) ∧
    ∀ j, j ≠ i → (update_command l i c)[j]? = l[j]? := by
  refine ⟨update_command_length l i c, ?_, ?_⟩
  · intro a ha
    unfold update_command
    rw [ha, List.getElem?_set_self h]
  · intro j hj
    unfold update_command
    cases hl : l[i]? with
    | none => rfl
    | some a => exact List.getElem?_set_ne (Ne.symm hj)

/-- C6 witness: editing index 0 of a two-alias store to command "z" keeps
the length, rewrites only the command at index 0, and leaves index 1 as it
was. -/
theorem update_command_frame_witness :
    0 < ([⟨"a", "x", none⟩, ⟨"b", "y", some 'b'⟩] : List Alias).length ∧
    update_command [⟨"a", "x", none⟩, ⟨"b", "y", some 'b'⟩] 0 "z" =
      [⟨"a", "z", none⟩, ⟨"b", "y", some 'b'⟩] ∧
    (update_command [⟨"a", "x", none⟩, ⟨"b", "y", some 'b'⟩] 0 "z")[1]? =
      ([⟨"a", "x", none⟩, ⟨"b", "y", some 'b'⟩] : List Alias)[1]? :=
  ⟨by decide, by decide,
    (update_command_frame [⟨"a", "x", none⟩, ⟨"b", "y", some 'b'⟩] 0 "z"
      (by decide)).2.2 1 (by decide)⟩

/-- C7: for a list of length `N > 0`, Up from index 0 wraps to `N-1` and
otherwise decrements, Down from `N-1` wraps to 0 and otherwise increments,
and on an empty list both navigations keep the selection `None`. -/
theorem navigation_wraparound (N i : Nat) (hN : 0 < N) :
    move_up N (some 0) = some (N - 1) ∧
    (0 < i → i < N → move_up N (some i) = some (i - 1)) ∧
    move_down N (some (N - 1)) = some 0 ∧
    (i + 1 < N → move_down N (some i) = some (i + 1)) ∧
    move_up 0 none = none ∧
    move_down 0 none = none := by
  have hN' : ¬ N = 0 := by omega
  refine ⟨by simp [move_up, hN'], ?_, ?_, ?_, rfl, rfl⟩
  · intro h1 h2
    simp [move_up, hN', show ¬ i = 0 by omega]
  · simp only [move_down, hN', if_false, Option.getD_some]
    rw [show N - 1 + 1 = N by omega, Nat.mod_self]
  · intro hlt
    simp [move_down, hN', Nat.mod_eq_of_lt hlt]

/-- C7 witness: in a list of length 3, Up from 0 gives 2, Up from 1 gives
0, Down from 2 gives 0, Down from 1 gives 2; on an empty list both keep
`none`. -/
theorem navigation_wraparound_witness :
    move_up 3 (some 0) = some 2 ∧ move_up 3 (some 1) = some 0 ∧
    move_down 3 (some 2) = some 0 ∧ move_down 3 (some 1) = some 2 ∧
    move_up 0 none = none ∧ move_down 0 none = none := by
  have h := navigation_wraparound 3 1 (by decide)
  exact ⟨h.1, h.2.1 (by decide) (by decide), h.2.2.1,
    h.2.2.2.1 (by decide), h.2.2.2.2.1, h.2.2.2.2.2⟩

/-- C8: when two or more aliases share keybind `c`, `find_by_keybind`
returns the first match in sequence order — an index holding a matching
alias all of whose predecessors do not match; when no alias has keybind `c`
it returns `none` and the key press in `Main` mode with `Actions` focus is
a no-op: the state is unchanged and no command runs. -/
theorem find_by_keybind_first_and_noop (l : List Alias) (c : Char) :
    (2 ≤ (l.filter fun a => a.keybind = some c).length →
      ∃ i, find_by_keybind l c = some i) ∧
    (∀ i, find_by_keybind l c = some i →
      ∃ a, l[i]? = some a ∧ a.keybind = some c ∧
        ∀ j, j < i → ∀ b, l[j]? = some b → b.keybind ≠ some c) ∧
    ((∀ a ∈ l, a.keybind ≠ some c) →
      find_by_keybind l c = none ∧
      ∀ s : AppState, s.mode = .Main → s.focus = .Actions → s.aliases = l →
        step s (.Key (.Char c)) = (s, [])) := by
  refine ⟨?_, fun i h => find_by_keybind_spec l c i h,
    fun hno => ⟨find_by_keybind_eq_none l c hno, ?_⟩⟩
  · intro h2
    have hne : (l.filter fun a => a.keybind = some c) ≠ [] := by
      intro h0
      rw [h0] at h2
      simp at h2
    obtain ⟨a, ha⟩ := List.exists_mem_of_ne_nil _ hne
    have hmf := List.mem_filter.mp ha
    exact find_by_keybind_isSome l c ⟨a, hmf.1, by simpa using hmf.2⟩
  · intro s hm hf hl
    have hn : find_by_keybind s.aliases c = none := by
      rw [hl]
      exact find_by_keybind_eq_none l c hno
    exact keybind_no_match_noop s c hm hf hn

/-- C8 witness: in `demoTwo` both aliases bind `k`; lookup returns index 0,
the first one. With `z`, bound by neither, lookup returns `none` and a `z`
press from the initial `Main`/`Actions` state changes nothing and runs
nothing. -/
theorem find_by_keybind_first_and_noop_witness :
    find_by_keybind demoTwo 'k' = some 0 ∧
    demoTwo[0]? = some ⟨"first", "echo one", some 'k'⟩ ∧
    (∃ i, find_by_keybind demoTwo 'k' = some i) ∧
    find_by_keybind demoTwo 'z' = none ∧
    step (initState demoTwo "/bin/bash") (.Key (.Char 'z')) =
      (initState demoTwo "/bin/bash", []) := by
  have hk := find_by_keybind_first_and_noop demoTwo 'k'
  have hz := find_by_keybind_first_and_noop demoTwo 'z'
  refine ⟨by decide, by decide, hk.1 (by decide), (hz.2.2 (by decide)).1, ?_⟩
  exact (hz.2.2 (by decide)).2 (initState demoTwo "/bin/bash") rfl rfl rfl

/-- C9 counterexample: one and the same two-alias mapping serialized in its
two possible `HashMap` iteration orders yields different bytes, so repeated
load-and-save gives no byte-for-byte guarantee. -/
theorem save_bytes_order_cex :
    ([("a", ⟨"x", none⟩), ("b", ⟨"y", none⟩)] :
        List (String × AliasEntry)).Perm
      [("b", ⟨"y", none⟩), ("a", ⟨"x", none⟩)] ∧
    serializeConfigFile [("a", ⟨"x", none⟩), ("b", ⟨"y", none⟩)] "sh" ≠
      serializeConfigFile [("b", ⟨"y", none⟩), ("a", ⟨"x", none⟩)] "sh" := by
  constructor
  · decide
  · decide

/-- C9 (amended): the bytes written are a deterministic function of the
entry sequence in `HashMap` iteration order, and that unspecified order is
the only source of instability: any two iteration orders of a config
holding at most one alias produce identical bytes, so the byte-for-byte
round-trip stability holds exactly up to map order (and outright for
configs of at most one alias). -/
theorem save_bytes_stable_upto_order (o1 o2 : List (String × AliasEntry))
    (ds : String) (hperm : o1.Perm o2) (hlen : o1.length ≤ 1) :
    serializeConfigFile o1 ds = serializeConfigFile o2 ds := by
  have heq : o1 = o2 := by
    cases o1 with
    | nil => exact (List.perm_nil.mp hperm.symm).symm
    | cons a t =>
        cases t with
        | nil => exact (List.perm_singleton.mp hperm.symm).symm
        | cons b u => simp at hlen
  rw [heq]

/-- C9 witness: a one-entry config has a single iteration order and its
serialization is stable. -/
theorem save_bytes_stable_upto_order_witness :
    ([("a", (⟨"x", none⟩ : AliasEntry))]).Perm [("a", ⟨"x", none⟩)] ∧
    ([("a", (⟨"x", none⟩ : AliasEntry))]).length ≤ 1 ∧
    serializeConfigFile [("a", ⟨"x", none⟩)] "sh" =
      serializeConfigFile [("a", ⟨"x", none⟩)] "sh" :=
  ⟨by decide, by decide,
    save_bytes_stable_upto_order [("a", ⟨"x", none⟩)] [("a", ⟨"x", none⟩)]
      "sh" (by decide) (by decide)⟩

/-- C10: when two or more aliases share a name, the mapping `write_config`
writes contains exactly one entry for that name, bound to the entry of the
last such alias in sequence order — in-memory duplicates are silently lost
on persistence. -/
theorem duplicate_names_last_wins (l : List Alias) (n : String)
    (hdup : 2 ≤ (l.filter fun a => a.name = n).length) :
    ((write_config_map l).map Prod.fst).count n = 1 ∧
    (write_config_map l).lookup n =
      ((l.filter fun a => a.name = n).getLast?).map
        (fun a => (⟨a.command, a.keybind.map Char.toString⟩ : AliasEntry)) := by
  refine ⟨?_, write_config_map_lookup l n⟩
  have hne : (l.filter fun a => a.name = n) ≠ [] := by
    intro h0
    rw [h0] at hdup
    simp at hdup
  obtain ⟨x, hx⟩ : ∃ x, (l.filter fun a => a.name = n).getLast? = some x := by
    cases hgl : (l.filter fun a => a.name = n).getLast? with
    | none => exact absurd (List.getLast?_eq_none_iff.mp hgl) hne
    | some x => exact ⟨x, rfl⟩
  have hsome : (write_config_map l).lookup n =
      some ⟨x.command, x.keybind.map Char.toString⟩ := by
    rw [write_config_map_lookup l n, hx]
    rfl
  have hmem := lookup_some_mem_keys _ _ _ hsome
  exact List.count_eq_one_of_mem (nodup_keys_write_config_map l) hmem

/-- C10 witness: two aliases both named "a" collapse on save to the single
entry of the second one. -/
theorem duplicate_names_last_wins_witness :
    2 ≤ (([⟨"a", "one", none⟩, ⟨"a", "two", some 'x'⟩] : List Alias).filter
        fun a => a.name = "a").length ∧
    write_config_map [⟨"a", "one", none⟩, ⟨"a", "two", some 'x'⟩] =
      [("a", ⟨"two", some "x"⟩)] ∧
    ((write_config_map [⟨"a", "one", none⟩, ⟨"a", "two", some 'x'⟩]).map
        Prod.fst).count "a" = 1 :=
  ⟨by decide, by decide,
    (duplicate_names_last_wins [⟨"a", "one", none⟩, ⟨"a", "two", some 'x'⟩]
      "a" (by decide)).1⟩
